import Mathlib

/-!
Shallow embedding of `chnroutes.py3.py` (the chnroutes route-list generator).

The script has three parts with checkable semantics, all embedded here from
the source:

* the parsing stage of `fetch_ip_data` (source lines 179-196): a regex
  filter `apnic\|cn\|ipv4\|[0-9\.]+\|[0-9]+\|[0-9]+\|a.*` (IGNORECASE) run
  over the downloaded text with `findall`, followed by a loop that splits
  each matched record on `'|'` and converts the host count into a dotted
  netmask and a prefix length;
* the download progress loop of `fetch_ip_data` (source lines 137-176):
  a sliding window of `(timestamp, cumulative_bytes)` samples kept in a
  deque, from which a speed, a percentage and a bar fill are computed after
  every chunk;
* the `__main__` platform dispatch (source lines 212-226).

Python ints are modelled as `Nat`/`Int` (they are arbitrary precision),
Python floats of the progress loop as `ℚ` (exact arithmetic; every division
in the source is guarded so no rounding subtlety is hidden by this), and
raised exceptions as `Except PyErr`.  The regex has no backtracking (every
character class excludes the delimiter that follows it), so it is embedded
as a deterministic left-to-right scanner; `findall` returns at most one
match per line (`.` does not cross newlines and `a.*` extends to the end of
the line), in document order, so the text is modelled as its list of lines.
-/

namespace Chnroutes

/-- Python exceptions that the embedded code can raise: `ValueError`
(failed `int(...)` / `math domain error`) and `IndexError` (sequence index
out of range). -/
inductive PyErr where
  | valueError : PyErr
  | indexError : PyErr
deriving DecidableEq, Repr

/-- One element of the `results` list of `fetch_ip_data`: the tuple
`(starting_ip, mask, mask2)` built at source line 194.  `mask2` is a Python
int and may in principle be negative, hence `ℤ`. -/
structure Route where
  starting_ip : String
  mask : String
  mask2 : ℤ
deriving DecidableEq, Repr

/-- Decidable equality for `Except` results (not provided by the core
library of this toolchain), so that concrete runs of the embedded code can
be checked by `decide`. -/
instance {ε α : Type} [DecidableEq ε] [DecidableEq α] : DecidableEq (Except ε α) := fun x y =>
  match x, y with
  | .ok a, .ok b =>
    if h : a = b then isTrue (by rw [h]) else isFalse (by intro he; cases he; exact h rfl)
  | .error a, .error b =>
    if h : a = b then isTrue (by rw [h]) else isFalse (by intro he; cases he; exact h rfl)
  | .ok _, .error _ => isFalse (by intro h; cases h)
  | .error _, .ok _ => isFalse (by intro h; cases h)

/-! ### Python numeric / string primitives used by the parser -/

/-- Bitwise XOR on Python ints (arbitrary-precision two's complement), as
used at source line 187.  `Int.negSucc n` represents `~n`. -/
def pyXor (a b : ℤ) : ℤ :=
  match a, b with
  | Int.ofNat m, Int.ofNat n => Int.ofNat (m ^^^ n)
  | Int.ofNat m, Int.negSucc n => Int.negSucc (m ^^^ n)
  | Int.negSucc m, Int.ofNat n => Int.negSucc (m ^^^ n)
  | Int.negSucc m, Int.negSucc n => Int.ofNat (m ^^^ n)

/-- Lowercase hexadecimal digit for `n < 16`, as produced by Python's
`hex`. -/
def hexChar (n : ℕ) : Char :=
  if n < 10 then Char.ofNat (48 + n) else Char.ofNat (87 + n)

/-- Fuelled most-significant-first hex digit accumulator (the fuel is only
a structural-termination device; `natHexDigits` always supplies enough). -/
def hexDigitsAux : ℕ → ℕ → List Char → List Char
  | 0, _, acc => acc
  | fuel + 1, n, acc =>
    if n < 16 then hexChar n :: acc
    else hexDigitsAux fuel (n / 16) (hexChar (n % 16) :: acc)

/-- Hex digits of a natural number, lowercase, no leading zeros, `"0"` for
zero — exactly the digits of Python's `hex(n)` after the `"0x"` prefix. -/
def natHexDigits (n : ℕ) : List Char :=
  hexDigitsAux (n + 1) n []

/-- Models `hex(m)[2:]` (source line 188).  For `m ≥ 0`, `hex` gives
`"0x…"` so the slice is just the digits; for `m < 0` it gives `"-0x…"` and
the slice keeps a stray `'x'` in front of the digits of `|m|`. -/
def pyHexSlice2 (m : ℤ) : List Char :=
  if 0 ≤ m then natHexDigits m.toNat else 'x' :: natHexDigits (-m).toNat

/-- Models `str.zfill(w)` (source line 189) on the strings reachable here
(they never start with a sign character): left-pad with `'0'` to width
`w`. -/
def zfill (w : ℕ) (cs : List Char) : List Char :=
  List.replicate (w - cs.length) '0' ++ cs

/-- Models the Python slice `s[i:i+2]` (source line 190). -/
def slice2 (cs : List Char) (i : ℕ) : List Char :=
  (cs.drop i).take 2

/-- Value of a hexadecimal digit character, or `none` for any other
character. -/
def hexVal (c : Char) : Option ℕ :=
  if '0' ≤ c ∧ c ≤ '9' then some (c.toNat - 48)
  else if 'a' ≤ c ∧ c ≤ 'f' then some (c.toNat - 87)
  else if 'A' ≤ c ∧ c ≤ 'F' then some (c.toNat - 55)
  else none

/-- Accumulating base-16 evaluation; `none` as soon as a non-hex character
is hit. -/
def hexValAux : List Char → ℕ → Option ℕ
  | [], acc => some acc
  | c :: cs, acc =>
    match hexVal c with
    | some v => hexValAux cs (16 * acc + v)
    | none => none

/-- Models `int(s, 16)` (source line 191) on the strings reachable here
(two-character slices of a zero-filled hex string; the `'0x'`-prefix, sign
and whitespace forms of `int` never occur).  `int('', 16)` and any non-hex
character raise `ValueError`. -/
def pyIntHex (cs : List Char) : Except PyErr ℕ :=
  if cs = [] then .error .valueError
  else
    match hexValAux cs 0 with
    | some v => .ok v
    | none => .error .valueError

/-- Decimal value of an all-digit string. -/
def digitsVal (cs : List Char) : ℕ :=
  cs.foldl (fun a c => 10 * a + (c.toNat - 48)) 0

/-- Models `int(s)` (source line 186) on the strings reachable here: the
host-count field of a matched record is `[0-9]+`-shaped, so only nonempty
digit strings occur (sign/whitespace/underscore forms of `int` never do);
anything else raises `ValueError`. -/
def pyIntDec (cs : List Char) : Except PyErr ℕ :=
  if cs ≠ [] ∧ cs.all (·.isDigit) then .ok (digitsVal cs) else .error .valueError

/-- Fuelled floor-log₂ (the fuel is a structural-termination device). -/
def log2fuel : ℕ → ℕ → ℕ
  | 0, _ => 0
  | fuel + 1, n => if n < 2 then 0 else log2fuel fuel (n / 2) + 1

/-- Floor of the base-2 logarithm, the value of `int(math.log(n, 2))` for
`1 ≤ n`.  The source computes this through IEEE-double `math.log`, which
agrees with the exact floor for every `n` in the range of an IPv4 host
count (`1 ≤ n ≤ 2^32`): the closest `n` in that range to a power of two is
`2^32 - 1`, whose log₂ differs from `32` by about `3·10⁻¹⁰`, eight orders
of magnitude above the rounding error of `log`.  Only astronomically large
non-power counts (`≥ 2^53 - 1`) could make the float truncation differ,
and no theorem below is stated in that regime. -/
def pyLog2floor (n : ℕ) : ℕ :=
  log2fuel n n

/-- Models `int(math.log(n, 2))` (source line 193) including the
`math domain error` (a `ValueError`) raised when `n = 0`. -/
def pyLog2 (n : ℕ) : Except PyErr ℕ :=
  if n = 0 then .error .valueError else .ok (pyLog2floor n)

/-- Models `lst[i]` on a Python list: the element, or `IndexError` when out
of range (negative indices never occur in the source). -/
def pyIndex {α : Type} (l : List α) (i : ℕ) : Except PyErr α :=
  match l[i]? with
  | some x => .ok x
  | none => .error .indexError

/-! ### The mask computation (source lines 187-194) -/

/-- The string `"{}.{}.{}.{}".format(a, b, c, d)` (source line 192) on
ints. -/
def dottedOf (a b c d : ℕ) : String :=
  Nat.repr a ++ "." ++ Nat.repr b ++ "." ++ Nat.repr c ++ "." ++ Nat.repr d

/-- Source lines 187-191: `imask = 0xffffffff ^ (num_ip - 1)`, hex-format,
zero-fill to 8 characters, cut into the four two-character slices and parse
each back with `int(_, 16)` — in that order, first failure raised. -/
def maskOctets (num_ip : ℕ) : Except PyErr (ℕ × ℕ × ℕ × ℕ) :=
  let s := zfill 8 (pyHexSlice2 (pyXor 0xffffffff ((num_ip : ℤ) - 1)))
  match pyIntHex (slice2 s 0) with
  | .error e => .error e
  | .ok a =>
    match pyIntHex (slice2 s 2) with
    | .error e => .error e
    | .ok b =>
      match pyIntHex (slice2 s 4) with
      | .error e => .error e
      | .ok c =>
        match pyIntHex (slice2 s 6) with
        | .error e => .error e
        | .ok d => .ok (a, b, c, d)

/-- The loop body of source lines 187-194 after the two fields have been
read: dotted mask first (its `int(_, 16)` calls can raise), then
`mask2 = 32 - int(math.log(num_ip, 2))`, then the result tuple. -/
def routeOfFields (starting_ip : String) (num_ip : ℕ) : Except PyErr Route :=
  match maskOctets num_ip with
  | .error e => .error e
  | .ok (a, b, c, d) =>
    match pyLog2 num_ip with
    | .error e => .error e
    | .ok lg => .ok { starting_ip := starting_ip, mask := dottedOf a b c d, mask2 := 32 - (lg : ℤ) }

/-- The dotted mask the loop computes for a given host count (default
`""` on the one failing count, `0`). -/
def maskOf (n : ℕ) : String :=
  match routeOfFields "" n with
  | .ok r => r.mask
  | .error _ => ""

/-- Value of one decimal octet of a dotted quad: a nonempty digit string
whose value is below 256. -/
def octetVal (cs : List Char) : Option ℕ :=
  if cs ≠ [] ∧ cs.all (·.isDigit) then
    if digitsVal cs < 256 then some (digitsVal cs) else none
  else none

/-- Modelled from the spec's wording, for comparison with what the code
produces: decode a dotted mask string "as four big-endian octets into a
32-bit integer". -/
def dottedQuadToNat (s : String) : Option ℕ :=
  match s.data.splitOn '.' with
  | [a, b, c, d] =>
    match octetVal a, octetVal b, octetVal c, octetVal d with
    | some x, some y, some z, some w => some (((x * 256 + y) * 256 + z) * 256 + w)
    | _, _, _, _ => none
  | _ => none

/-! ### The filter regex as a deterministic scanner -/

/-- Uppercase image of an ASCII lowercase letter (identity otherwise);
used to embed `re.IGNORECASE` matching of the ASCII literal pattern. -/
def upperCh (c : Char) : Char :=
  if 'a' ≤ c ∧ c ≤ 'z' then Char.ofNat (c.toNat - 32) else c

/-- Consume a literal word of the pattern case-insensitively
(`re.IGNORECASE`); the pattern words here contain no `'|'`. -/
def stripWordCI : List Char → List Char → Option (List Char)
  | [], cs => some cs
  | _ :: _, [] => none
  | p :: ps, c :: cs => if c = p ∨ c = upperCh p then stripWordCI ps cs else none

/-- Consume one `'|'` (the escaped `\|` of the pattern). -/
def expectPipe : List Char → Option (List Char)
  | [] => none
  | c :: cs => if c = '|' then some cs else none

/-- The character class `[0-9\.]` of the regex. -/
def ipChar (c : Char) : Bool :=
  c.isDigit || c = '.'

/-- Consume a nonempty greedy run of a character class (`[…]+` of the
regex): the run and the remainder, or `none` when the run is empty. -/
def scanClass (p : Char → Bool) (cs : List Char) : Option (List Char × List Char) :=
  if cs.takeWhile p = [] then none else some (cs.takeWhile p, cs.dropWhile p)

/-- The `a.*` tail of the pattern (IGNORECASE): the next character must be
`a` or `A`; `.*` then matches the rest of the line unconditionally. -/
def scanStatus : List Char → Option Unit
  | [] => none
  | c :: _ => if c = 'a' ∨ c = 'A' then some () else none

/-- Deterministic scan of `apnic\|cn\|ipv4\|[0-9\.]+\|[0-9]+\|[0-9]+\|a.*`
(IGNORECASE) at the start of `cs`; every character class excludes the
delimiter that follows it, so the regex engine's greedy matching never
backtracks and this scanner is equivalent.  Returns the `[0-9\.]+` and the
first `[0-9]+` groups (the fields the loop later uses). -/
def scanRecord (cs : List Char) : Option (List Char × List Char) :=
  (stripWordCI "apnic".data cs).bind fun r1 =>
  (expectPipe r1).bind fun r2 =>
  (stripWordCI "cn".data r2).bind fun r3 =>
  (expectPipe r3).bind fun r4 =>
  (stripWordCI "ipv4".data r4).bind fun r5 =>
  (expectPipe r5).bind fun r6 =>
  (scanClass ipChar r6).bind fun ipr =>
  (expectPipe ipr.2).bind fun r8 =>
  (scanClass (·.isDigit) r8).bind fun n1r =>
  (expectPipe n1r.2).bind fun r10 =>
  (scanClass (·.isDigit) r10).bind fun n2r =>
  (expectPipe n2r.2).bind fun r12 =>
  (scanStatus r12).map fun _ => (ipr.1, n1r.1)

/-- Whether the pattern matches at this position. -/
def cnScan (cs : List Char) : Bool :=
  (scanRecord cs).isSome

/-- The match `re.findall` produces on one line: the substring from the
first position where the pattern matches, through the end of the line
(`a.*` is greedy and `.` stops at the newline), or `none`. -/
def findMatch : List Char → Option (List Char)
  | [] => none
  | c :: cs => if cnScan (c :: cs) then some (c :: cs) else findMatch cs

/-- Whether a line of the document contributes a match to `findall`. -/
def lineMatch (l : String) : Bool :=
  (findMatch l.data).isSome

/-- Models `str.split('|')` (source line 184). -/
def splitPipe : List Char → List (List Char)
  | [] => [[]]
  | c :: rest =>
    if c = '|' then [] :: splitPipe rest
    else
      match splitPipe rest with
      | [] => [[c]]
      | f :: fs => (c :: f) :: fs

/-! ### The parsing loop (source lines 182-194) -/

/-- One iteration of the loop: `unit_items = item.split('|')`, read
`unit_items[3]` and `unit_items[4]`, `int` the count, then the mask
computation. -/
def parseItem (item : List Char) : Except PyErr Route :=
  let unit_items := splitPipe item
  match pyIndex unit_items 3 with
  | .error e => .error e
  | .ok starting_ip =>
    match pyIndex unit_items 4 with
    | .error e => .error e
    | .ok f4 =>
      match pyIntDec f4 with
      | .error e => .error e
      | .ok num_ip => routeOfFields (String.mk starting_ip) num_ip

/-- The whole `for item in cndata` loop: routes in order, first raised
exception aborts the call (the partial `results` list is discarded). -/
def parseAll : List (List Char) → Except PyErr (List Route)
  | [] => .ok []
  | item :: rest =>
    match parseItem item with
    | .error e => .error e
    | .ok r =>
      match parseAll rest with
      | .error e => .error e
      | .ok rs => .ok (r :: rs)

/-- `cndata = cnregex.findall(data)`: the matches, one per matching line,
in document order. -/
def matchedItems (lines : List String) : List (List Char) :=
  lines.filterMap (fun l => findMatch l.data)

/-- The parsing stage of `fetch_ip_data` (source lines 180-196), applied to
the decoded document given as its list of lines. -/
def fetch_ip_data_parse (lines : List String) : Except PyErr (List Route) :=
  parseAll (matchedItems lines)

/-- The host count carried by a matched record, if this string is such a
record. -/
def itemHostCount (item : List Char) : Option ℕ :=
  match scanRecord item with
  | some (_, n1) => some (digitsVal n1)
  | none => none

/-! ### The download progress loop (source lines 134-176)

Timestamps (`time.time()` floats) and the computed speed/percentage are
modelled in `ℚ`; byte counters are `ℕ`.  `total` is the parsed
`Content-Length` header: `none` when the header is absent, and note that
the source's truthiness tests (`if total_size`) also treat a parsed `0` as
"unknown". -/

/-- The mutable state of the download loop: `downloaded` and the `history`
deque of `(timestamp, cumulative_bytes)` samples. -/
structure DState where
  downloaded : ℕ
  history : List (ℚ × ℕ)
deriving DecidableEq, Repr

/-- What one loop iteration prints (source lines 158-175): the speed in
MB/s, the percentage, and the number of filled bar cells. -/
structure Obs where
  speed_mb_s : ℚ
  progress : ℚ
  filled_length : ℕ
deriving DecidableEq, Repr

/-- Source lines 155-156: `while history and (current_time - history[0][0]) > 10:
history.popleft()` — pop from the front while the front sample is strictly
older than 10 seconds. -/
def evict (t : ℚ) : List (ℚ × ℕ) → List (ℚ × ℕ)
  | [] => []
  | e :: rest => if t - e.1 > 10 then evict t rest else e :: rest

/-- Source lines 158-164: speed from the oldest window sample, `0.0` when
the window is empty or no time has elapsed since its oldest sample. -/
def speedOf (t : ℚ) (downloaded : ℕ) : List (ℚ × ℕ) → ℚ
  | [] => 0
  | e :: _ =>
    if t - e.1 > 0 then ((downloaded : ℚ) - (e.2 : ℚ)) / (t - e.1) / (1024 * 1024) else 0

/-- Source line 165: `progress = (downloaded / total_size * 100) if
total_size else 0` (`None` and `0` are both falsy). -/
def progressOf (total : Option ℕ) (downloaded : ℕ) : ℚ :=
  match total with
  | some ts => if ts ≠ 0 then (downloaded : ℚ) / (ts : ℚ) * 100 else 0
  | none => 0

/-- Source line 167: `filled_length = int(bar_width * downloaded /
total_size) if total_size else 0`.  The truncation of the nonnegative
float quotient is modelled as `Nat` division (exact floor); the theorems
below only rely on the falsy branch, where both agree exactly. -/
def filledOf (total : Option ℕ) (downloaded : ℕ) : ℕ :=
  match total with
  | some ts => if ts ≠ 0 then 50 * downloaded / ts else 0
  | none => 0

/-- One iteration of the `while True` chunk loop (source lines 150-175) for
a chunk of `clen` bytes read at time `t`: update `downloaded`, append the
sample, evict, then compute the printed observation. -/
def step (st : DState) (clen : ℕ) (t : ℚ) (total : Option ℕ) : DState × Obs :=
  let d := st.downloaded + clen
  let h := evict t (st.history ++ [(t, d)])
  (⟨d, h⟩, ⟨speedOf t d h, progressOf total d, filledOf total d⟩)

/-- The loop run over a list of `(chunk_size, timestamp)` pairs, collecting
the per-chunk observations. -/
def runChunks (total : Option ℕ) (st : DState) : List (ℕ × ℚ) → DState × List Obs
  | [] => (st, [])
  | (c, t) :: rest =>
    let p := step st c t total
    let q := runChunks total p.1 rest
    (q.1, p.2 :: q.2)

/-- The invariant relating the history samples to the byte counter: every
recorded cumulative count is at most the current total. -/
def DInv (st : DState) : Prop :=
  ∀ e ∈ st.history, e.2 ≤ st.downloaded

/-! ### The `__main__` platform dispatch (source lines 212-226) -/

/-- Outcome of the `__main__` dispatch: one of the four existing generators
runs; or the `else` branch writes to stderr and calls `sys.exit(1)`; or —
for `'win'` — the call `generate_win(args.metric)` hits a name that is
defined nowhere in the script and raises an unhandled `NameError`. -/
inductive MainResult where
  | generated (platform : String) (metric : ℤ)
  | exits (stderrMsg : String) (code : ℕ)
  | nameError (missing : String)
deriving DecidableEq, Repr

/-- ASCII lowercasing of one character, as `str.lower` acts on the
selector strings compared against (all ASCII). -/
def lowerAscii (c : Char) : Char :=
  if 'A' ≤ c ∧ c ≤ 'Z' then Char.ofNat (c.toNat + 32) else c

/-- Models `args.platform.lower()` (source line 213). -/
def pyLower (s : String) : String :=
  String.mk (s.data.map lowerAscii)

/-- Source lines 213-226: `platform = args.platform.lower()` followed by
the if/elif chain. -/
def dispatch (platform : String) (metric : ℤ) : MainResult :=
  let p := pyLower platform
  if p = "openvpn" then .generated "openvpn" metric
  else if p = "linux" then .generated "linux" metric
  else if p = "mac" then .generated "mac" metric
  else if p = "win" then .nameError "generate_win"
  else if p = "android" then .generated "android" metric
  else .exits ("Platform " ++ platform ++ " is not supported.\n") 1

/-! ### Structural lemmas about the scanner and `split('|')` -/

theorem stripWordCI_decomp : ∀ (ps cs r : List Char), stripWordCI ps cs = some r →
    ∃ w, cs = w ++ r ∧ ∀ c ∈ w, ∃ p ∈ ps, c = p ∨ c = upperCh p := by
  intro ps
  induction ps with
  | nil =>
    intro cs r h
    simp only [stripWordCI, Option.some.injEq] at h
    exact ⟨[], by simp [h], by simp⟩
  | cons p ps ih =>
    intro cs r h
    cases cs with
    | nil => simp [stripWordCI] at h
    | cons c cs' =>
      simp only [stripWordCI] at h
      by_cases hc : c = p ∨ c = upperCh p
      · rw [if_pos hc] at h
        obtain ⟨w, hw, hmem⟩ := ih cs' r h
        refine ⟨c :: w, by simp [hw], ?_⟩
        intro x hx
        rcases List.mem_cons.mp hx with hx | hx
        · exact ⟨p, List.mem_cons_self p ps, hx ▸ hc⟩
        · obtain ⟨q, hq, hcq⟩ := hmem x hx
          exact ⟨q, List.mem_cons_of_mem p hq, hcq⟩
      · rw [if_neg hc] at h
        cases h

theorem expectPipe_eq {cs r : List Char} (h : expectPipe cs = some r) : cs = '|' :: r := by
  cases cs with
  | nil => simp [expectPipe] at h
  | cons c cs' =>
    simp only [expectPipe] at h
    by_cases hc : c = '|'
    · rw [if_pos hc] at h
      rw [hc, Option.some.inj h]
    · rw [if_neg hc] at h
      cases h

theorem mem_takeWhile_sat {α : Type} (p : α → Bool) :
    ∀ (l : List α) (c : α), c ∈ l.takeWhile p → p c := by
  intro l
  induction l with
  | nil => simp
  | cons a l ih =>
    intro c hc
    cases hpa : p a with
    | true =>
      rw [List.takeWhile_cons, if_pos hpa] at hc
      rcases List.mem_cons.mp hc with hc | hc
      · rwa [hc]
      · exact ih c hc
    | false =>
      rw [List.takeWhile_cons, if_neg (by simp [hpa])] at hc
      cases hc

theorem scanClass_decomp {p : Char → Bool} {cs w r : List Char}
    (h : scanClass p cs = some (w, r)) :
    cs = w ++ r ∧ w ≠ [] ∧ ∀ c ∈ w, p c := by
  by_cases he : cs.takeWhile p = []
  · simp [scanClass, he] at h
  · simp only [scanClass, if_neg he, Option.some.injEq, Prod.mk.injEq] at h
    obtain ⟨hw, hr⟩ := h
    subst hw
    subst hr
    exact ⟨(List.takeWhile_append_dropWhile p cs).symm, he, mem_takeWhile_sat p cs⟩

theorem word_no_pipe {ps cs r : List Char} (h : stripWordCI ps cs = some r)
    (hps : ∀ p ∈ ps, p ≠ '|' ∧ upperCh p ≠ '|') :
    ∃ w', cs = w' ++ r ∧ '|' ∉ w' := by
  obtain ⟨w', hw, hmem⟩ := stripWordCI_decomp ps cs r h
  refine ⟨w', hw, fun hmem' => ?_⟩
  obtain ⟨q, hq, hcq⟩ := hmem '|' hmem'
  rcases hcq with hcq | hcq
  · exact (hps q hq).1 hcq.symm
  · exact (hps q hq).2 hcq.symm

theorem ipChar_ne_pipe {c : Char} (h : ipChar c) : c ≠ '|' := by
  intro hc
  rw [hc] at h
  simp [ipChar] at h

theorem isDigit_ne_pipe {c : Char} (h : c.isDigit) : c ≠ '|' := by
  intro hc
  rw [hc] at h
  simp [Char.isDigit] at h

/-- Full decomposition of a string matched by the pattern into its seven
pipe-delimited parts. -/
theorem scanRecord_decomp {cs ip n1 : List Char} (h : scanRecord cs = some (ip, n1)) :
    ∃ w1 w2 w3 n2 rest,
      cs = w1 ++ '|' :: (w2 ++ '|' :: (w3 ++ '|' :: (ip ++ '|' :: (n1 ++ '|' :: (n2 ++ '|' :: rest)))))
      ∧ '|' ∉ w1 ∧ '|' ∉ w2 ∧ '|' ∉ w3 ∧ '|' ∉ ip ∧ '|' ∉ n1 ∧ '|' ∉ n2
      ∧ ip ≠ [] ∧ n1 ≠ [] ∧ (∀ c ∈ n1, c.isDigit) := by
  simp only [scanRecord, Option.bind_eq_some, Option.map_eq_some'] at h
  obtain ⟨r1, e1, r2, e2, r3, e3, r4, e4, r5, e5, r6, e6, ⟨ipw, ipr2⟩, e7, r8, e8,
    ⟨n1w, n1r2⟩, e9, r10, e10, ⟨n2w, n2r2⟩, e11, r12, e12, u, hu, hpair⟩ := h
  injection hpair with hip1 hn11
  subst hip1
  subst hn11
  dsimp only at e8 e10 e12
  obtain ⟨w1, hw1, hw1p⟩ := word_no_pipe e1 (by decide)
  obtain ⟨w2, hw2, hw2p⟩ := word_no_pipe e3 (by decide)
  obtain ⟨w3, hw3, hw3p⟩ := word_no_pipe e5 (by decide)
  obtain ⟨hip, hipne, hipc⟩ := scanClass_decomp e7
  obtain ⟨hn1, hn1ne, hn1c⟩ := scanClass_decomp e9
  obtain ⟨hn2, hn2ne, hn2c⟩ := scanClass_decomp e11
  refine ⟨w1, w2, w3, n2w, r12, ?_, hw1p, hw2p, hw3p, ?_, ?_, ?_, hipne, hn1ne, hn1c⟩
  · rw [hw1, expectPipe_eq e2, hw2, expectPipe_eq e4, hw3, expectPipe_eq e6, hip,
      expectPipe_eq e8, hn1, expectPipe_eq e10, hn2, expectPipe_eq e12]
  · exact fun hmem => ipChar_ne_pipe (hipc '|' hmem) rfl
  · exact fun hmem => isDigit_ne_pipe (hn1c '|' hmem) rfl
  · exact fun hmem => isDigit_ne_pipe (hn2c '|' hmem) rfl

theorem splitPipe_ne_nil : ∀ cs : List Char, splitPipe cs ≠ [] := by
  intro cs
  cases cs with
  | nil => simp [splitPipe]
  | cons c rest =>
    simp only [splitPipe]
    by_cases hc : c = '|'
    · simp [hc]
    · rw [if_neg hc]
      cases h : splitPipe rest with
      | nil => simp
      | cons f fs => simp

theorem splitPipe_no_pipe_append {w : List Char} (r : List Char) (hw : '|' ∉ w) :
    splitPipe (w ++ '|' :: r) = w :: splitPipe r := by
  induction w with
  | nil => simp [splitPipe]
  | cons c w ih =>
    have hc : c ≠ '|' := fun h => hw (h ▸ List.mem_cons_self c w)
    have hw' : '|' ∉ w := fun h => hw (List.mem_cons_of_mem c h)
    show splitPipe (c :: (w ++ '|' :: r)) = (c :: w) :: splitPipe r
    rw [splitPipe, if_neg hc, ih hw']

theorem splitPipe_length : ∀ cs : List Char, (splitPipe cs).length = cs.count '|' + 1 := by
  intro cs
  induction cs with
  | nil => simp [splitPipe]
  | cons c rest ih =>
    simp only [splitPipe]
    by_cases hc : c = '|'
    · rw [if_pos hc, hc]
      simp [List.count_cons, ih]
    · rw [if_neg hc]
      cases h : splitPipe rest with
      | nil => exact absurd h (splitPipe_ne_nil rest)
      | cons f fs =>
        rw [h] at ih
        simp only [List.length_cons] at ih ⊢
        rw [List.count_cons, if_neg (by simp [hc])]
        simpa using ih

/-- A matched record always carries at least six pipes, i.e. seven
pipe-delimited fields. -/
theorem scanRecord_count {cs x} (h : scanRecord cs = some x) : 6 ≤ cs.count '|' := by
  obtain ⟨ip, n1⟩ := x
  obtain ⟨w1, w2, w3, n2, rest, hcs, -, -, -, -, -, -, -, -, -⟩ := scanRecord_decomp h
  subst hcs
  simp only [List.count_append, List.count_cons]
  simp
  omega

theorem count_pipe_suffix_le : ∀ (c : Char) (cs : List Char), cs.count '|' ≤ (c :: cs).count '|' := by
  intro c cs
  rw [List.count_cons]
  omega

theorem findMatch_none_of_count {cs : List Char} (h : cs.count '|' < 6) : findMatch cs = none := by
  induction cs with
  | nil => simp [findMatch]
  | cons c rest ih =>
    have hscan : cnScan (c :: rest) = false := by
      cases hs : cnScan (c :: rest) with
      | false => rfl
      | true =>
        obtain ⟨x, hx⟩ := Option.isSome_iff_exists.mp hs
        exact absurd (scanRecord_count hx) (by omega)
    have hrest : rest.count '|' < 6 :=
      lt_of_le_of_lt (count_pipe_suffix_le c rest) h
    simp only [findMatch, hscan, Bool.false_eq_true, if_false]
    exact ih hrest

theorem findMatch_some_scan : ∀ {cs item : List Char}, findMatch cs = some item →
    ∃ x, scanRecord item = some x := by
  intro cs
  induction cs with
  | nil => intro item h; simp [findMatch] at h
  | cons c rest ih =>
    intro item h
    simp only [findMatch] at h
    by_cases hs : cnScan (c :: rest)
    · rw [if_pos hs] at h
      cases h
      exact Option.isSome_iff_exists.mp hs
    · rw [if_neg hs] at h
      exact ih h

/-! ### Totality of the mask computation for nonzero host counts -/

theorem hexVal_hexChar : ∀ m : ℕ, m < 16 → (hexVal (hexChar m)).isSome := by decide

theorem hexDigitsAux_hex : ∀ (fuel n : ℕ) (acc : List Char),
    (∀ c ∈ acc, (hexVal c).isSome) → ∀ c ∈ hexDigitsAux fuel n acc, (hexVal c).isSome := by
  intro fuel
  induction fuel with
  | zero => intro n acc hacc c hc; exact hacc c hc
  | succ fuel ih =>
    intro n acc hacc c hc
    rw [hexDigitsAux] at hc
    by_cases hn : n < 16
    · rw [if_pos hn] at hc
      rcases List.mem_cons.mp hc with hc | hc
      · rw [hc]; exact hexVal_hexChar n hn
      · exact hacc c hc
    · rw [if_neg hn] at hc
      refine ih (n / 16) _ ?_ c hc
      intro c' hc'
      rcases List.mem_cons.mp hc' with hc' | hc'
      · rw [hc']; exact hexVal_hexChar (n % 16) (Nat.mod_lt n (by omega))
      · exact hacc c' hc'

theorem natHexDigits_hex (n : ℕ) : ∀ c ∈ natHexDigits n, (hexVal c).isSome :=
  hexDigitsAux_hex (n + 1) n [] (by simp)

theorem zfill_hex {cs : List Char} (h : ∀ c ∈ cs, (hexVal c).isSome) :
    ∀ c ∈ zfill 8 cs, (hexVal c).isSome := by
  intro c hc
  rcases List.mem_append.mp hc with hc | hc
  · rw [List.eq_of_mem_replicate hc]; decide
  · exact h c hc

theorem zfill_length (cs : List Char) : 8 ≤ (zfill 8 cs).length := by
  simp only [zfill, List.length_append, List.length_replicate]
  omega

theorem slice2_ne_nil {cs : List Char} {i : ℕ} (h : i + 2 ≤ cs.length) : slice2 cs i ≠ [] := by
  intro he
  have hlen : (slice2 cs i).length = 0 := by rw [he]; rfl
  rw [slice2, List.length_take, List.length_drop] at hlen
  omega

theorem slice2_subset {cs : List Char} {i : ℕ} : ∀ c ∈ slice2 cs i, c ∈ cs := by
  intro c hc
  exact List.drop_subset i cs (List.take_subset 2 _ hc)

theorem hexValAux_isSome : ∀ (cs : List Char) (acc : ℕ), (∀ c ∈ cs, (hexVal c).isSome) →
    ∃ v, hexValAux cs acc = some v := by
  intro cs
  induction cs with
  | nil => intro acc _; exact ⟨acc, rfl⟩
  | cons c cs ih =>
    intro acc h
    obtain ⟨v, hv⟩ := Option.isSome_iff_exists.mp (h c (List.mem_cons_self c cs))
    simp only [hexValAux, hv]
    exact ih _ (fun c' hc' => h c' (List.mem_cons_of_mem c hc'))

theorem pyIntHex_ok {cs : List Char} (hne : cs ≠ []) (h : ∀ c ∈ cs, (hexVal c).isSome) :
    ∃ v, pyIntHex cs = .ok v := by
  obtain ⟨v, hv⟩ := hexValAux_isSome cs 0 h
  exact ⟨v, by simp only [pyIntHex, if_neg hne, hv]⟩

theorem pyXor_pos {n : ℕ} (h : 1 ≤ n) :
    pyXor 0xffffffff ((n : ℤ) - 1) = ((0xffffffff ^^^ (n - 1) : ℕ) : ℤ) := by
  have he : ((n : ℤ)) - 1 = ((n - 1 : ℕ) : ℤ) := by omega
  rw [he]
  rfl

theorem slice2_hex_ok {s : List Char} (hlen : 8 ≤ s.length)
    (hhex : ∀ c ∈ s, (hexVal c).isSome) {i : ℕ} (hi : i + 2 ≤ 8) :
    ∃ v, pyIntHex (slice2 s i) = .ok v :=
  pyIntHex_ok (slice2_ne_nil (by omega)) (fun c hc => hhex c (slice2_subset c hc))

theorem maskOctets_ok {n : ℕ} (h : 1 ≤ n) : ∃ q, maskOctets n = .ok q := by
  have hallhex : ∀ c ∈ zfill 8 (pyHexSlice2 (pyXor 0xffffffff ((n : ℤ) - 1))),
      (hexVal c).isSome := by
    rw [pyXor_pos h]
    refine zfill_hex ?_
    rw [pyHexSlice2, if_pos (Int.natCast_nonneg _), Int.toNat_natCast]
    exact natHexDigits_hex (0xffffffff ^^^ (n - 1))
  have hlen : 8 ≤ (zfill 8 (pyHexSlice2 (pyXor 0xffffffff ((n : ℤ) - 1)))).length :=
    zfill_length _
  obtain ⟨a, ha⟩ := slice2_hex_ok hlen hallhex (i := 0) (by omega)
  obtain ⟨b, hb⟩ := slice2_hex_ok hlen hallhex (i := 2) (by omega)
  obtain ⟨c, hc⟩ := slice2_hex_ok hlen hallhex (i := 4) (by omega)
  obtain ⟨d, hd⟩ := slice2_hex_ok hlen hallhex (i := 6) (by omega)
  exact ⟨(a, b, c, d), by simp only [maskOctets, ha, hb, hc, hd]⟩

theorem routeOfFields_ok {n : ℕ} (h : 1 ≤ n) (ip : String) :
    routeOfFields ip n = .ok ⟨ip, maskOf n, 32 - (pyLog2floor n : ℤ)⟩ := by
  obtain ⟨⟨a, b, c, d⟩, hq⟩ := maskOctets_ok h
  have hl : pyLog2 n = .ok (pyLog2floor n) := by
    rw [pyLog2, if_neg (by omega)]
  have hro : ∀ s : String, routeOfFields s n = .ok ⟨s, dottedOf a b c d, 32 - (pyLog2floor n : ℤ)⟩ := by
    intro s
    simp only [routeOfFields, hq, hl]
  have hmask : maskOf n = dottedOf a b c d := by
    rw [maskOf, hro ""]
  rw [hro ip, hmask]

/-! ### From a matched record to its parsed route -/

theorem parseItem_eq {item ip n1 : List Char} (h : scanRecord item = some (ip, n1)) :
    parseItem item = routeOfFields (String.mk ip) (digitsVal n1) := by
  obtain ⟨w1, w2, w3, n2, rest, hcs, p1, p2, p3, p4, p5, p6, hipne, hn1ne, hn1d⟩ :=
    scanRecord_decomp h
  have hsplit : splitPipe item = w1 :: w2 :: w3 :: ip :: n1 :: n2 :: splitPipe rest := by
    rw [hcs, splitPipe_no_pipe_append _ p1, splitPipe_no_pipe_append _ p2,
      splitPipe_no_pipe_append _ p3, splitPipe_no_pipe_append _ p4,
      splitPipe_no_pipe_append _ p5, splitPipe_no_pipe_append _ p6]
  have h3 : (splitPipe item)[3]? = some ip := by rw [hsplit]; rfl
  have h4 : (splitPipe item)[4]? = some n1 := by rw [hsplit]; rfl
  have hint : pyIntDec n1 = .ok (digitsVal n1) := by
    rw [pyIntDec, if_pos ⟨hn1ne, List.all_eq_true.mpr hn1d⟩]
  simp only [parseItem, pyIndex, h3, h4, hint]

theorem parseItem_ok {item ip n1 : List Char} (h : scanRecord item = some (ip, n1))
    (hpos : digitsVal n1 ≠ 0) :
    parseItem item =
      .ok ⟨String.mk ip, maskOf (digitsVal n1), 32 - (pyLog2floor (digitsVal n1) : ℤ)⟩ := by
  rw [parseItem_eq h, routeOfFields_ok (by omega) _]

theorem parseAll_forall2 : ∀ items : List (List Char),
    (∀ it ∈ items, ∃ r, parseItem it = .ok r) →
    ∃ rs, parseAll items = .ok rs ∧ List.Forall₂ (fun it r => parseItem it = .ok r) items rs := by
  intro items
  induction items with
  | nil => intro _; exact ⟨[], rfl, List.Forall₂.nil⟩
  | cons it items ih =>
    intro h
    obtain ⟨r, hr⟩ := h it (List.mem_cons_self it items)
    obtain ⟨rs, hrs, hall⟩ := ih (fun x hx => h x (List.mem_cons_of_mem it hx))
    exact ⟨r :: rs, by simp only [parseAll, hr, hrs], List.Forall₂.cons hr hall⟩

theorem length_filterMap_countP {α β : Type} (f : α → Option β) :
    ∀ l : List α, (l.filterMap f).length = l.countP (fun x => (f x).isSome) := by
  intro l
  induction l with
  | nil => simp
  | cons a l ih =>
    cases hfa : f a with
    | none => simp [List.filterMap_cons, hfa, List.countP_cons, ih]
    | some b => simp [List.filterMap_cons, hfa, List.countP_cons, ih]

theorem matchedItems_scan {lines : List String} {item : List Char}
    (h : item ∈ matchedItems lines) : ∃ x, scanRecord item = some x := by
  obtain ⟨l, _, hfl⟩ := List.mem_filterMap.mp h
  exact findMatch_some_scan hfl

/-! ### Lemmas about the progress window -/

theorem evict_subset (t : ℚ) : ∀ l : List (ℚ × ℕ), ∀ e ∈ evict t l, e ∈ l := by
  intro l
  induction l with
  | nil => simp [evict]
  | cons x l ih =>
    intro e he
    rw [evict] at he
    by_cases hx : t - x.1 > 10
    · rw [if_pos hx] at he
      exact List.mem_cons_of_mem x (ih e he)
    · rwa [if_neg hx] at he

theorem evict_mem_last (t : ℚ) (p : ℚ × ℕ) (hp : ¬t - p.1 > 10) :
    ∀ l : List (ℚ × ℕ), p ∈ evict t (l ++ [p]) := by
  intro l
  induction l with
  | nil =>
    simp only [List.nil_append, evict, if_neg hp]
    exact List.mem_cons_self p []
  | cons x l ih =>
    rw [List.cons_append, evict]
    by_cases hx : t - x.1 > 10
    · rw [if_pos hx]; exact ih
    · rw [if_neg hx]
      exact List.mem_cons_of_mem x (List.mem_append_right l (List.mem_cons_self p []))

theorem evict_age (t : ℚ) : ∀ l : List (ℚ × ℕ), l.Pairwise (fun a b => a.1 ≤ b.1) →
    ∀ e ∈ evict t l, t - e.1 ≤ 10 := by
  intro l
  induction l with
  | nil => simp [evict]
  | cons x l ih =>
    intro hp e he
    obtain ⟨hx, hl⟩ := List.pairwise_cons.mp hp
    rw [evict] at he
    by_cases hxt : t - x.1 > 10
    · rw [if_pos hxt] at he
      exact ih hl e he
    · rw [if_neg hxt] at he
      have hxle : t - x.1 ≤ 10 := not_lt.mp hxt
      rcases List.mem_cons.mp he with he | he
      · rw [he]; exact hxle
      · have := hx e he
        linarith

theorem step_history (st : DState) (c : ℕ) (t : ℚ) (tot : Option ℕ) :
    (step st c t tot).1.history = evict t (st.history ++ [(t, st.downloaded + c)]) := rfl

theorem step_downloaded (st : DState) (c : ℕ) (t : ℚ) (tot : Option ℕ) :
    (step st c t tot).1.downloaded = st.downloaded + c := rfl

theorem step_speed (st : DState) (c : ℕ) (t : ℚ) (tot : Option ℕ) :
    (step st c t tot).2.speed_mb_s =
      speedOf t (st.downloaded + c) (evict t (st.history ++ [(t, st.downloaded + c)])) := rfl

theorem step_progress (st : DState) (c : ℕ) (t : ℚ) (tot : Option ℕ) :
    (step st c t tot).2.progress = progressOf tot (st.downloaded + c) := rfl

theorem step_filled (st : DState) (c : ℕ) (t : ℚ) (tot : Option ℕ) :
    (step st c t tot).2.filled_length = filledOf tot (st.downloaded + c) := rfl

theorem step_new_sample_mem (st : DState) (c : ℕ) (t : ℚ) (tot : Option ℕ) :
    (t, st.downloaded + c) ∈ (step st c t tot).1.history := by
  rw [step_history]
  exact evict_mem_last t _ (by norm_num) _

theorem step_history_ne_nil (st : DState) (c : ℕ) (t : ℚ) (tot : Option ℕ) :
    (step st c t tot).1.history ≠ [] := by
  intro h
  have hm := step_new_sample_mem st c t tot
  rw [h] at hm
  exact absurd hm (List.not_mem_nil _)

theorem step_inv (st : DState) (c : ℕ) (t : ℚ) (tot : Option ℕ) (hinv : DInv st) :
    DInv (step st c t tot).1 := by
  intro e he
  rw [step_history] at he
  rw [step_downloaded]
  rcases List.mem_append.mp (evict_subset t _ e he) with hm | hm
  · exact le_trans (hinv e hm) (by omega)
  · rw [List.mem_singleton.mp hm]

theorem progressOf_mono (tot : Option ℕ) {d1 d2 : ℕ} (h : d1 ≤ d2) :
    progressOf tot d1 ≤ progressOf tot d2 := by
  cases tot with
  | none => simp [progressOf]
  | some T =>
    by_cases hT : T = 0
    · simp [progressOf, hT]
    · simp only [progressOf, if_pos hT]
      have hd : (d1 : ℚ) ≤ (d2 : ℚ) := by exact_mod_cast h
      have hT' : (0 : ℚ) < (T : ℚ) := by
        exact_mod_cast Nat.pos_of_ne_zero hT
      gcongr

/-- Speed printed after a step, expressed through the head of the stepped
window. -/
theorem step_speed_head (st : DState) (c : ℕ) (t : ℚ) (tot : Option ℕ) {e0 : ℚ × ℕ}
    {rest : List (ℚ × ℕ)} (hh : (step st c t tot).1.history = e0 :: rest) :
    (step st c t tot).2.speed_mb_s =
      if t - e0.1 > 0 then
        (((st.downloaded + c : ℕ) : ℚ) - (e0.2 : ℚ)) / (t - e0.1) / (1024 * 1024)
      else 0 := by
  rw [step_speed]
  rw [step_history] at hh
  rw [hh]
  rfl

/-- The spec's example chunk trace `[100, 200, 300]` at times `[0, 1, 2]`
with a total of 1000 bytes: the three reported speeds. -/
theorem trace_speeds :
    (runChunks (some 1000) ⟨0, []⟩ [(100, 0), (200, 1), (300, 2)]).2.map Obs.speed_mb_s
      = [0, 200 / 1048576, 250 / 1048576] := by
  norm_num [runChunks, step, evict, speedOf, progressOf, filledOf]

/-- The spec's example chunk trace: the three reported percentages. -/
theorem trace_progress :
    (runChunks (some 1000) ⟨0, []⟩ [(100, 0), (200, 1), (300, 2)]).2.map Obs.progress
      = [10, 30, 60] := by
  norm_num [runChunks, step, evict, speedOf, progressOf, filledOf]

/-! ### The claims -/

/-- Claim C1: for every allocation record whose host count is `2^k` with
`0 ≤ k ≤ 32`, the parsing stage returns a route whose prefix length is
`32 - k` and whose dotted mask, decoded as four big-endian octets into a
32-bit integer, is `0xFFFFFFFF XOR (hostCount - 1)`; in particular
`hostCount = 1024` yields the dotted mask `"255.255.252.0"` and prefix
length 22. -/
theorem c1_power_of_two_mask (ip : String) (k : ℕ) (hk : k ≤ 32) :
    routeOfFields ip (2 ^ k) = .ok ⟨ip, maskOf (2 ^ k), 32 - (k : ℤ)⟩
    ∧ dottedQuadToNat (maskOf (2 ^ k)) = some (0xffffffff ^^^ (2 ^ k - 1))
    ∧ parseItem "apnic|cn|ipv4|1.0.1.0|1024|20110101|allocated".data =
        .ok ⟨"1.0.1.0", "255.255.252.0", 22⟩ := by
  have hc : ∀ j : ℕ, j < 33 →
      routeOfFields "" (2 ^ j) = .ok ⟨"", maskOf (2 ^ j), 32 - (j : ℤ)⟩
      ∧ dottedQuadToNat (maskOf (2 ^ j)) = some (0xffffffff ^^^ (2 ^ j - 1)) := by decide
  obtain ⟨h1, h2⟩ := hc k (by omega)
  refine ⟨?_, h2, by decide⟩
  have h3 := routeOfFields_ok (Nat.one_le_pow k 2 (by omega)) ip
  have h4 := routeOfFields_ok (Nat.one_le_pow k 2 (by omega)) ""
  rw [h4] at h1
  have h5 : (32 - (pyLog2floor (2 ^ k) : ℤ)) = 32 - (k : ℤ) :=
    congrArg Route.mask2 (Except.ok.inj h1)
  rw [h3, h5]

/-- Witness for C1 at `k = 10`. -/
theorem c1_power_of_two_mask_witness :
    (10 : ℕ) ≤ 32
    ∧ (routeOfFields "1.0.1.0" (2 ^ 10) = .ok ⟨"1.0.1.0", maskOf (2 ^ 10), 32 - ((10 : ℕ) : ℤ)⟩
       ∧ dottedQuadToNat (maskOf (2 ^ 10)) = some (0xffffffff ^^^ (2 ^ 10 - 1))
       ∧ parseItem "apnic|cn|ipv4|1.0.1.0|1024|20110101|allocated".data =
           .ok ⟨"1.0.1.0", "255.255.252.0", 22⟩) :=
  ⟨by decide, c1_power_of_two_mask "1.0.1.0" 10 (by decide)⟩

/-- Claim C2, counterexample: a line carrying the matching
`apnic|cn|ipv4` prefix but only five pipe-delimited fields does not match
the full filter; the extractor reports no error and simply returns the
empty route list for a document consisting of that line. -/
theorem c2_counterexample :
    (splitPipe "apnic|cn|ipv4|1.0.1.0|256".data).length = 5
    ∧ lineMatch "apnic|cn|ipv4|1.0.1.0|256" = false
    ∧ fetch_ip_data_parse ["apnic|cn|ipv4|1.0.1.0|256"] = .ok [] := by decide

/-- Claim C2 as amended: a matching-prefix line with fewer than the seven
pipe-delimited fields never matches the full filter regex, so the
extractor silently skips it — its result on any document containing the
line equals its result on the document without it, and no error is
reported. -/
theorem c2_malformed_line_skipped (l : String) (h : (splitPipe l.data).length < 7)
    (pre post : List String) :
    lineMatch l = false
    ∧ fetch_ip_data_parse (pre ++ l :: post) = fetch_ip_data_parse (pre ++ post) := by
  have hcount : l.data.count '|' < 6 := by
    have := splitPipe_length l.data
    omega
  have hnone : findMatch l.data = none := findMatch_none_of_count hcount
  constructor
  · rw [lineMatch, hnone]; rfl
  · unfold fetch_ip_data_parse matchedItems
    rw [List.filterMap_append, List.filterMap_append]
    simp only [List.filterMap_cons, hnone]

/-- Witness for the amended C2 on a concrete document. -/
theorem c2_malformed_line_skipped_witness :
    lineMatch "apnic|cn|ipv4|1.0.1.0|256" = false
    ∧ fetch_ip_data_parse
        ([] ++ "apnic|cn|ipv4|1.0.1.0|256" :: ["apnic|cn|ipv4|1.0.8.0|2048|20110412|allocated"]) =
      fetch_ip_data_parse ([] ++ ["apnic|cn|ipv4|1.0.8.0|2048|20110412|allocated"]) :=
  c2_malformed_line_skipped "apnic|cn|ipv4|1.0.1.0|256" (by decide) []
    ["apnic|cn|ipv4|1.0.8.0|2048|20110412|allocated"]

/-- Claim C3, counterexample: a document with exactly one matching line —
its host-count field `"0"` is admitted by the `[0-9]+` filter — on which
the extractor raises `ValueError` instead of returning a one-route list. -/
theorem c3_counterexample :
    (["apnic|cn|ipv4|1.0.1.0|0|20110101|allocated"] : List String).countP
        (fun l => lineMatch l) = 1
    ∧ fetch_ip_data_parse ["apnic|cn|ipv4|1.0.1.0|0|20110101|allocated"] =
        .error PyErr.valueError := by decide

/-- Claim C3 as amended: on every input whose matching lines all carry a
nonzero host count, the extractor returns exactly N routes for N matching
lines, one route per matching line in original document order
(`List.Forall₂` ties the i-th route to the i-th match — no sorting,
de-duplication or merging). -/
theorem c3_order_preserving (lines : List String)
    (h : ∀ item ∈ matchedItems lines, itemHostCount item ≠ some 0) :
    ∃ rs, fetch_ip_data_parse lines = .ok rs
      ∧ List.Forall₂ (fun item r => parseItem item = .ok r) (matchedItems lines) rs
      ∧ rs.length = lines.countP (fun l => lineMatch l) := by
  have hok : ∀ it ∈ matchedItems lines, ∃ r, parseItem it = .ok r := by
    intro it hit
    obtain ⟨⟨ip, n1⟩, hscan⟩ := matchedItems_scan hit
    have hnz : digitsVal n1 ≠ 0 := by
      intro h0
      exact h it hit (by simp only [itemHostCount, hscan, h0])
    exact ⟨_, parseItem_ok hscan hnz⟩
  obtain ⟨rs, hrs, hall⟩ := parseAll_forall2 _ hok
  refine ⟨rs, hrs, hall, ?_⟩
  rw [← List.Forall₂.length_eq hall, matchedItems, length_filterMap_countP]
  rfl

/-- Witness for the amended C3: a four-line document with two matching
lines (one of them case-variant), one foreign-country line and one junk
line. -/
theorem c3_order_preserving_witness :
    ∃ rs, fetch_ip_data_parse
        ["apnic|cn|ipv4|1.0.1.0|256|20110101|allocated",
         "apnic|jp|ipv4|1.0.16.0|4096|20110412|allocated",
         "# junk",
         "APNIC|CN|ipv4|27.8.0.0|524288|20100322|allocated"] = .ok rs
      ∧ List.Forall₂ (fun item r => parseItem item = .ok r)
          (matchedItems
            ["apnic|cn|ipv4|1.0.1.0|256|20110101|allocated",
             "apnic|jp|ipv4|1.0.16.0|4096|20110412|allocated",
             "# junk",
             "APNIC|CN|ipv4|27.8.0.0|524288|20100322|allocated"]) rs
      ∧ rs.length = (["apnic|cn|ipv4|1.0.1.0|256|20110101|allocated",
          "apnic|jp|ipv4|1.0.16.0|4096|20110412|allocated",
          "# junk",
          "APNIC|CN|ipv4|27.8.0.0|524288|20100322|allocated"] : List String).countP
            (fun l => lineMatch l) :=
  c3_order_preserving
    ["apnic|cn|ipv4|1.0.1.0|256|20110101|allocated",
     "apnic|jp|ipv4|1.0.16.0|4096|20110412|allocated",
     "# junk",
     "APNIC|CN|ipv4|27.8.0.0|524288|20100322|allocated"] (by decide)

/-- Claim C4 (the code contradicts it at `"win"`): every selector other
than the five recognized keywords is reported with the explicit
unsupported-platform message and exit status 1 — but `"win"`, which the
claim counts as unsupported since it has no generator, instead reaches a
call to the undefined name `generate_win` and crashes with an unhandled
`NameError`. -/
theorem c4_unsupported_platform :
    dispatch "win" 5 = MainResult.nameError "generate_win"
    ∧ ∀ (p : String) (m : ℤ),
        pyLower p ∉ (["openvpn", "linux", "mac", "win", "android"] : List String) →
        dispatch p m = .exits ("Platform " ++ p ++ " is not supported.\n") 1 := by
  refine ⟨by decide, ?_⟩
  intro p m h
  simp only [List.mem_cons, List.not_mem_nil, or_false, not_or] at h
  obtain ⟨h1, h2, h3, h4, h5⟩ := h
  simp only [dispatch, if_neg h1, if_neg h2, if_neg h3, if_neg h4, if_neg h5]

/-- Witness for the clean-error half of C4. -/
theorem c4_unsupported_platform_witness :
    dispatch "solaris" 5 = MainResult.exits "Platform solaris is not supported.\n" 1 :=
  c4_unsupported_platform.2 "solaris" 5 (by decide)

/-- Claim C5: after each chunk the reported speed equals the windowed byte
delta divided by the windowed elapsed time and by 1,048,576; whenever no
time has elapsed across the window — the very first sample included — it
is exactly `0`; and it is never negative (every division is guarded by a
strictly positive denominator, so in the exact-arithmetic model no NaN or
infinity can arise).  The last conjunct checks the spec's chunk trace
`[100, 200, 300]` at times `[0, 1, 2]`. -/
theorem c5_speed_formula (st : DState) (c : ℕ) (t : ℚ) (tot : Option ℕ) (hinv : DInv st) :
    ∃ e0 rest, (step st c t tot).1.history = e0 :: rest
      ∧ (0 < t - e0.1 →
          (step st c t tot).2.speed_mb_s =
            (((st.downloaded + c : ℕ) : ℚ) - (e0.2 : ℚ)) / (t - e0.1) / 1048576)
      ∧ (t - e0.1 ≤ 0 → (step st c t tot).2.speed_mb_s = 0)
      ∧ 0 ≤ (step st c t tot).2.speed_mb_s
      ∧ (runChunks (some 1000) ⟨0, []⟩ [(100, 0), (200, 1), (300, 2)]).2.map Obs.speed_mb_s
          = [0, 200 / 1048576, 250 / 1048576] := by
  cases hh : (step st c t tot).1.history with
  | nil => exact absurd hh (step_history_ne_nil st c t tot)
  | cons e0 rest =>
    have hd := step_speed_head st c t tot hh
    have he0mem : e0 ∈ (step st c t tot).1.history := by
      rw [hh]; exact List.mem_cons_self e0 rest
    have hle : (e0.2 : ℚ) ≤ ((st.downloaded + c : ℕ) : ℚ) := by
      have hb := step_inv st c t tot hinv e0 he0mem
      rw [step_downloaded] at hb
      exact_mod_cast hb
    refine ⟨e0, rest, rfl, ?_, ?_, ?_, trace_speeds⟩
    · intro hpos
      rw [hd, if_pos hpos]
      norm_num
    · intro hnp
      rw [hd, if_neg (not_lt.mpr hnp)]
    · rw [hd]
      by_cases hpos : t - e0.1 > 0
      · rw [if_pos hpos]
        have hnum : 0 ≤ ((st.downloaded + c : ℕ) : ℚ) - (e0.2 : ℚ) := by linarith
        exact div_nonneg (div_nonneg hnum (le_of_lt hpos)) (by norm_num)
      · rw [if_neg hpos]

/-- Witness for C5: the very first chunk, empty window beforehand. -/
theorem c5_speed_formula_witness :
    ∃ e0 rest, (step ⟨0, []⟩ 100 0 (some 1000)).1.history = e0 :: rest
      ∧ (0 < (0 : ℚ) - e0.1 →
          (step ⟨0, []⟩ 100 0 (some 1000)).2.speed_mb_s =
            (((0 + 100 : ℕ) : ℚ) - (e0.2 : ℚ)) / ((0 : ℚ) - e0.1) / 1048576)
      ∧ ((0 : ℚ) - e0.1 ≤ 0 → (step ⟨0, []⟩ 100 0 (some 1000)).2.speed_mb_s = 0)
      ∧ 0 ≤ (step ⟨0, []⟩ 100 0 (some 1000)).2.speed_mb_s
      ∧ (runChunks (some 1000) ⟨0, []⟩ [(100, 0), (200, 1), (300, 2)]).2.map Obs.speed_mb_s
          = [0, 200 / 1048576, 250 / 1048576] :=
  c5_speed_formula ⟨0, []⟩ 100 0 (some 1000) (by simp [DInv])

/-- Claim C6: with a known nonzero total the reported percentage is
`downloaded / total * 100`, hence non-decreasing from each chunk to the
next, with the spec's example trace giving 10, 30, 60; with the
Content-Length header absent the loop still produces an observation whose
percentage is the constant default `0` — independent of the bytes received,
i.e. indeterminate — and whose bar fill is `0`. -/
theorem c6_percentage (st : DState) (c : ℕ) (t : ℚ) (T : ℕ) (hT : T ≠ 0) :
    (step st c t (some T)).2.progress = ((st.downloaded + c : ℕ) : ℚ) / (T : ℚ) * 100
    ∧ (∀ (st' : DState) (c1 c2 : ℕ) (t1 t2 : ℚ) (tot : Option ℕ),
        (step st' c1 t1 tot).2.progress ≤ (step (step st' c1 t1 tot).1 c2 t2 tot).2.progress)
    ∧ (∀ (st' : DState) (c' : ℕ) (t' : ℚ),
        (step st' c' t' none).2.progress = 0 ∧ (step st' c' t' none).2.filled_length = 0)
    ∧ (runChunks (some 1000) ⟨0, []⟩ [(100, 0), (200, 1), (300, 2)]).2.map Obs.progress
        = [10, 30, 60] := by
  refine ⟨?_, ?_, ?_, trace_progress⟩
  · simp only [step_progress, progressOf]
    rw [if_pos hT]
  · intro st' c1 c2 t1 t2 tot
    rw [step_progress, step_progress, step_downloaded]
    exact progressOf_mono tot (by omega)
  · intro st' c' t'
    exact ⟨rfl, rfl⟩

/-- Witness for C6 at the first chunk of the spec's example. -/
theorem c6_percentage_witness :
    (step ⟨0, []⟩ 100 0 (some 1000)).2.progress = ((0 + 100 : ℕ) : ℚ) / ((1000 : ℕ) : ℚ) * 100
    ∧ (∀ (st' : DState) (c1 c2 : ℕ) (t1 t2 : ℚ) (tot : Option ℕ),
        (step st' c1 t1 tot).2.progress ≤ (step (step st' c1 t1 tot).1 c2 t2 tot).2.progress)
    ∧ (∀ (st' : DState) (c' : ℕ) (t' : ℚ),
        (step st' c' t' none).2.progress = 0 ∧ (step st' c' t' none).2.filled_length = 0)
    ∧ (runChunks (some 1000) ⟨0, []⟩ [(100, 0), (200, 1), (300, 2)]).2.map Obs.progress
        = [10, 30, 60] :=
  c6_percentage ⟨0, []⟩ 100 0 1000 (by decide)

/-- Claim C7: each chunk appends a `(timestamp, cumulativeBytes)` sample
and then evicts from the front everything strictly older than 10 seconds
relative to the newest sample, so — the stored timestamps being ordered
and not after the new one, as successive `time.time()` readings are —
every sample remaining after the step is at most 10 seconds older than
the newest sample's timestamp. -/
theorem c7_window_age (st : DState) (c : ℕ) (t : ℚ) (tot : Option ℕ)
    (hp : st.history.Pairwise (fun a b => a.1 ≤ b.1))
    (hle : ∀ e ∈ st.history, e.1 ≤ t) :
    ∀ e ∈ (step st c t tot).1.history, t - e.1 ≤ 10 := by
  intro e he
  rw [step_history] at he
  refine evict_age t _ ?_ e he
  rw [List.pairwise_append]
  refine ⟨hp, List.pairwise_singleton _ _, ?_⟩
  intro a ha b hb
  rw [List.mem_singleton.mp hb]
  exact hle a ha

/-- Witness for C7: a two-sample window at times 0 and 5 stepped at time
12; the sample from time 5 survives with age 7. -/
theorem c7_window_age_witness : (12 : ℚ) - 5 ≤ 10 :=
  c7_window_age ⟨300, [(0, 100), (5, 200)]⟩ 50 12 none
    (by norm_num [List.pairwise_cons])
    (by
      intro e he
      rcases List.mem_cons.mp he with he | he
      · rw [he]; norm_num
      · rw [List.mem_singleton.mp he]; norm_num)
    ((5 : ℚ), (200 : ℕ))
    (by
      rw [step_history]
      norm_num [evict, List.mem_cons])

/-- Claim C9: the eviction loop can never empty the window — the sample
just appended has age zero relative to itself and survives — so after
every step the window is nonempty, its front access is in bounds, and the
speed division only executes with a strictly positive denominator. -/
theorem c9_window_nonempty (st : DState) (c : ℕ) (t : ℚ) (tot : Option ℕ) :
    (t, st.downloaded + c) ∈ (step st c t tot).1.history
    ∧ ∃ e0 rest, (step st c t tot).1.history = e0 :: rest
      ∧ ((0 < t - e0.1
          ∧ (step st c t tot).2.speed_mb_s =
              (((st.downloaded + c : ℕ) : ℚ) - (e0.2 : ℚ)) / (t - e0.1) / (1024 * 1024))
         ∨ (step st c t tot).2.speed_mb_s = 0) := by
  refine ⟨step_new_sample_mem st c t tot, ?_⟩
  cases hh : (step st c t tot).1.history with
  | nil => exact absurd hh (step_history_ne_nil st c t tot)
  | cons e0 rest =>
    have hd := step_speed_head st c t tot hh
    refine ⟨e0, rest, rfl, ?_⟩
    by_cases hpos : t - e0.1 > 0
    · exact Or.inl ⟨hpos, by rw [hd, if_pos hpos]⟩
    · exact Or.inr (by rw [hd, if_neg hpos])

/-- Claim C8: the host count of a matched record is never validated to be
a power of two — for every positive non-power-of-two count the parser
still returns a route, its prefix length computed from the truncated
logarithm, rather than failing; concretely, host count 1000 yields the
(wrong) mask `255.255.252.24` with prefix length 23. -/
theorem c8_non_power_unvalidated (ip : String) (n : ℕ) (h1 : 1 ≤ n)
    (h2 : ∀ j : ℕ, n ≠ 2 ^ j) :
    routeOfFields ip n = .ok ⟨ip, maskOf n, 32 - (pyLog2floor n : ℤ)⟩
    ∧ parseItem "apnic|cn|ipv4|1.0.1.0|1000|20110101|allocated".data =
        .ok ⟨"1.0.1.0", "255.255.252.24", 23⟩ :=
  ⟨routeOfFields_ok h1 ip, by decide⟩

/-- Witness for C8 at the non-power `n = 1000`. -/
theorem c8_non_power_unvalidated_witness :
    routeOfFields "1.0.1.0" 1000 = .ok ⟨"1.0.1.0", maskOf 1000, 32 - (pyLog2floor 1000 : ℤ)⟩
    ∧ parseItem "apnic|cn|ipv4|1.0.1.0|1000|20110101|allocated".data =
        .ok ⟨"1.0.1.0", "255.255.252.24", 23⟩ :=
  c8_non_power_unvalidated "1.0.1.0" 1000 (by decide)
    (by
      intro j hj
      rcases Nat.lt_or_ge j 10 with hlt | hge
      · have hp : (2 : ℕ) ^ j ≤ 512 :=
          le_trans (Nat.pow_le_pow_right (by omega) (show j ≤ 9 by omega)) (by norm_num)
        omega
      · have hp : (1024 : ℕ) ≤ 2 ^ j :=
          le_trans (by norm_num) (Nat.pow_le_pow_right (by omega) hge)
        omega)

/-- Claim C10: the extractor is not total over filtered lines — on a
matched line whose host-count field is `"0"` (admitted by `[0-9]+`), the
computation `0xFFFFFFFF XOR (0 - 1)` is negative, its hex decomposition
yields the non-hex slice `"x1"`, and `int("x1", 16)` raises an unhandled
`ValueError`, so the whole parse errors instead of returning a route
list. -/
theorem c10_zero_count_raises :
    findMatch "apnic|cn|ipv4|1.0.1.0|0|20110101|allocated".data =
      some "apnic|cn|ipv4|1.0.1.0|0|20110101|allocated".data
    ∧ itemHostCount "apnic|cn|ipv4|1.0.1.0|0|20110101|allocated".data = some 0
    ∧ pyXor 0xffffffff ((0 : ℤ) - 1) = -4294967296
    ∧ slice2 (zfill 8 (pyHexSlice2 (pyXor 0xffffffff ((0 : ℤ) - 1)))) 0 = ['x', '1']
    ∧ hexVal 'x' = none
    ∧ parseItem "apnic|cn|ipv4|1.0.1.0|0|20110101|allocated".data = .error PyErr.valueError
    ∧ fetch_ip_data_parse ["apnic|cn|ipv4|1.0.1.0|0|20110101|allocated"] =
        .error PyErr.valueError := by decide

end Chnroutes
